import Mathlib

/-!
Shallow embedding of the tika indexer (src/src/main.rs): the front-matter
deserialization, the interactive terminal state machine, the tantivy
projection, and the per-file indexing loop of `main`, together with a
spec-modelled incremental sync pipeline (ChecksumStore / IndexSyncPipeline)
whose code is not part of the sources at hand.
-/

namespace Tika

/-- A YAML value as seen by serde_yaml's `deserialize_any` dispatch:
scalars, sequences and mappings.  Mapping keys are restricted to strings,
which is all the front matter uses. -/
inductive Yaml where
  | str (s : String)
  | seq (items : List Yaml)
  | map (entries : List (String × Yaml))
  | bool (b : Bool)
  | int (n : Int)
  | null

/-- serde deserialization errors relevant to `TikaDocument`: a required
field absent from the mapping, or a value of the wrong shape. -/
inductive DeErr where
  | missingField (name : String)
  | invalidType
deriving DecidableEq, Repr

/-- `Vec<String>` deserialization of a YAML sequence (the `visit_seq` arm of
`string_or_list_string`): every element must be a string. -/
def yamlStrings : List Yaml → Except DeErr (List String)
  | [] => Except.ok []
  | Yaml.str s :: rest =>
      match yamlStrings rest with
      | Except.ok r => Except.ok (s :: r)
      | Except.error e => Except.error e
  | _ :: _ => Except.error DeErr.invalidType

/-- `string_or_list_string` (main.rs:123-153): a visitor with `visit_str`
(wrap the scalar in a one-element vector) and `visit_seq` (deserialize a
`Vec<String>`); every other YAML shape falls into the visitor's default
methods, which error. -/
def string_or_list_string : Yaml → Except DeErr (List String)
  | Yaml.str s => Except.ok [s]
  | Yaml.seq items => yamlStrings items
  | _ => Except.error DeErr.invalidType

/-- Whether a YAML value is a scalar string. -/
def isYamlStr : Yaml → Bool
  | Yaml.str _ => true
  | _ => false

/-- A YAML shape that is neither a scalar string nor a sequence of strings:
the shapes `string_or_list_string` is expected to reject. -/
def yamlOtherShape : Yaml → Bool
  | Yaml.str _ => false
  | Yaml.seq items => !items.all isYamlStr
  | _ => true

/-- `TikaDocument` (main.rs:100-120).  `full_path` and `body` are
`skip_deserializing`; `filename` and `author` have serde defaults (empty
string); `date`, `tags`, `title` are required. -/
structure TikaDocument where
  filename : String
  full_path : String
  author : String
  date : String
  tags : List String
  title : String
  body : String
deriving DecidableEq, Repr

/-- Derived serde deserialization of `TikaDocument` from a YAML mapping:
unknown keys are ignored, defaulted fields fall back to `""`, required
fields (`date`, `tags`, `title`, checked in declaration order) raise
`missing field` when absent.  `tags` goes through
`string_or_list_string`. -/
def deTika (m : List (String × Yaml)) : Except DeErr TikaDocument := do
  let filename ← (match m.lookup "filename" with
    | none => Except.ok ""
    | some (Yaml.str s) => Except.ok s
    | some _ => Except.error DeErr.invalidType : Except DeErr String)
  let author ← (match m.lookup "author" with
    | none => Except.ok ""
    | some (Yaml.str s) => Except.ok s
    | some _ => Except.error DeErr.invalidType : Except DeErr String)
  let date ← (match m.lookup "date" with
    | none => Except.error (DeErr.missingField "date")
    | some (Yaml.str s) => Except.ok s
    | some _ => Except.error DeErr.invalidType : Except DeErr String)
  let tags ← (match m.lookup "tags" with
    | none => Except.error (DeErr.missingField "tags")
    | some y => string_or_list_string y : Except DeErr (List String))
  let title ← (match m.lookup "title" with
    | none => Except.error (DeErr.missingField "title")
    | some (Yaml.str s) => Except.ok s
    | some _ => Except.error DeErr.invalidType : Except DeErr String)
  Except.ok { filename := filename, full_path := "", author := author,
              date := date, tags := tags, title := title, body := "" }

/-- `TerminalApp` (main.rs:42-49): input buffer, query match titles, and the
selected-row state of the list widget (`ListState.selected`). -/
structure TerminalApp where
  input : String
  «matches» : List String
  state : Option Nat
deriving DecidableEq, Repr

/-- Wrapping `usize` subtraction on a 64-bit target (the overflow case is
only reachable as `matches.len() - 1` on an empty list; a debug build would
panic there instead). -/
def usizeSub (a b : Nat) : Nat := (a + (2 ^ 64 - b % 2 ^ 64)) % 2 ^ 64

/-- `TerminalApp::next` (main.rs:60-72): arrow-down handler. -/
def TerminalApp.next (app : TerminalApp) : TerminalApp :=
  let i := match app.state with
    | some i => if i ≥ usizeSub app.«matches».length 1 then 0 else i + 1
    | none => 0
  { app with state := some i }

/-- `TerminalApp::previous` (main.rs:74-86): arrow-up handler. -/
def TerminalApp.previous (app : TerminalApp) : TerminalApp :=
  let i := match app.state with
    | some i => if i = 0 then usizeSub app.«matches».length 1 else i - 1
    | none => 0
  { app with state := some i }

/-- `TerminalApp::get_selected` (main.rs:52-58): `none` models the panic of
the unchecked `self.matches[i]` indexing when the selection is out of
bounds. -/
def TerminalApp.get_selected (app : TerminalApp) : Option (List String) :=
  match app.state with
  | none => some []
  | some i =>
      if h : i < app.«matches».length then some [app.«matches».get ⟨i, h⟩]
      else none

/-- The termion key events the loop at main.rs:390-413 distinguishes. -/
inductive Key where
  | char (c : Char)
  | ctrl (c : Char)
  | backspace
  | down
  | up
  | otherKey
deriving DecidableEq, Repr

/-- Result of one iteration of the interactive loop body: the loop breaks
with a selection, the `?` on `parse_query` propagates an error out of
`main`, a panic occurs, or the loop continues with a new state. -/
inductive LoopStep where
  | exited (selected : List String)
  | errored
  | panicked
  | continued (app : TerminalApp)
deriving DecidableEq, Repr

/-- The requery after every non-breaking key (main.rs:415-429): `pq` models
`parse_query` composed with `searcher.search` and title extraction.  On
`Err` the `?` aborts; on success the match list is replaced — the selected
index is left untouched. -/
def requery (pq : String → Except Unit (List String)) (app : TerminalApp) :
    LoopStep :=
  match pq app.input with
  | Except.error _ => LoopStep.errored
  | Except.ok titles => LoopStep.continued { app with «matches» := titles }

/-- One iteration of the interactive loop body (main.rs:390-430), as a
function of the incoming key event. -/
def loopStep (pq : String → Except Unit (List String)) (app : TerminalApp)
    (k : Key) : LoopStep :=
  match k with
  | Key.char c =>
      if c = '\n' then
        match app.get_selected with
        | none => LoopStep.panicked
        | some sel => LoopStep.exited sel
      else requery pq { app with input := app.input.push c }
  | Key.ctrl c =>
      if c = 'c' then LoopStep.exited []
      else requery pq app
  | Key.backspace => requery pq { app with input := app.input.dropRight 1 }
  | Key.down => requery pq app.next
  | Key.up => requery pq app.previous
  | Key.otherKey => requery pq app

/-- A tantivy stored value as the `From<TantivyDoc>` impl can observe it:
`text()` is `Some` only for text values; the `date` field is stored as a
typed date (a UTC instant). -/
inductive TantivyValue where
  | text (s : String)
  | date (instant : Int)
deriving DecidableEq, Repr

/-- `Value::text()`. -/
def valueText : TantivyValue → Option String
  | TantivyValue.text s => some s
  | TantivyValue.date _ => none

/-- `TantivyDoc` (main.rs:469-477) together with the stored field values of
its `retrieved_doc`: `get_first(field)` for each stored schema field
(`none` = field absent from the retrieved document). -/
structure TantivyDocM where
  filenameV : Option TantivyValue
  full_pathV : Option TantivyValue
  authorV : Option TantivyValue
  dateV : Option TantivyValue
  tagsV : Option TantivyValue
  titleV : Option TantivyValue
deriving DecidableEq, Repr

/-- `From<TantivyDoc> for TikaDocument` (main.rs:155-191).  `none` models
the panic of `get_first(..).unwrap()` when one of the four read fields is
absent; `.text().unwrap_or("")` turns a non-text value into `""`.  `body`
and `full_path` are hard-coded empty and `tags` is the hard-coded
placeholder `["foo"]`. -/
def tikaFromTantivy (item : TantivyDocM) : Option TikaDocument :=
  match item.filenameV, item.authorV, item.titleV, item.dateV with
  | some fv, some av, some tv, some dv =>
      some { filename := (valueText fv).getD "",
             full_path := "",
             author := (valueText av).getD "",
             date := (valueText dv).getD "",
             tags := ["foo"],
             title := (valueText tv).getD "",
             body := "" }
  | _, _, _, _ => none

/-- A chrono `DateTime<FixedOffset>`: an absolute instant (seconds since the
epoch, timezone independent) together with the fixed offset (seconds). -/
structure DateTimeFO where
  instant : Int
  offset : Int
deriving DecidableEq, Repr

/-- `t.with_timezone(&chrono::Utc)`: same instant, offset zero. -/
def withTimezoneUtc (t : DateTimeFO) : DateTimeFO :=
  { instant := t.instant, offset := 0 }

/-- The field values staged by the `doc!` macro call at main.rs:270-278.
The `date` field carries the UTC instant of `Value::Date`. -/
structure IndexedFields where
  author : String
  body : String
  date : Int
  filename : String
  full_path : String
  tags : String
  title : String
deriving DecidableEq, Repr

/-- The `doc!` invocation (main.rs:270-278): `tags` is submitted as the
single string `doc.tags.join(" ")`, and `date` as
`Value::Date(t.with_timezone(&Utc))`. -/
def mkFields (doc : TikaDocument) (f : String) (t : DateTimeFO) :
    IndexedFields :=
  { author := doc.author,
    body := doc.body,
    date := (withTimezoneUtc t).instant,
    filename := doc.filename,
    full_path := f,
    tags := String.intercalate " " doc.tags,
    title := doc.title }

/-- Operations `main` issues against the tantivy `IndexWriter`. -/
inductive Op where
  | add (fields : IndexedFields)
  | commit
deriving DecidableEq, Repr

/-- Whether an index-writer operation is the commit. -/
def isCommit : Op → Bool
  | Op.commit => true
  | Op.add _ => false

/-- One candidate file as `index_file` (main.rs:479-505) observes it:
`pathStr` is `path.to_str()` (None for non-UTF-8), `readOk` whether
`fs::read_to_string` succeeds, `fmParse` the result of
`frontmatter::parse_and_find_content` (error = malformed front matter,
`ok none` = no front-matter block, `ok (some m)` = the YAML mapping),
`content` the text after the block, and `lastSeg` is
`path.file_name()...to_str()` (None models an unavailable final segment). -/
structure FileInput where
  pathStr : Option String
  readOk : Bool
  fmParse : Except Unit (Option (List (String × Yaml)))
  content : String
  lastSeg : Option String

/-- Result of `index_file`: a panic (an `unwrap` fired), an `Err` returned
to the caller, or a parsed document. -/
inductive IndexFileResult where
  | panicked
  | err
  | ok (doc : TikaDocument)
deriving DecidableEq, Repr

/-- `index_file` (main.rs:479-505).  `path.to_str().unwrap()` and
`parse_and_find_content(..).unwrap()` and `serde_yaml::from_str(..).unwrap()`
and `path.file_name().unwrap().to_str().unwrap()` all panic on failure;
a read error or an absent front-matter block returns `Err`; on success the
empty `filename` is replaced by the path's final segment and `body` is set
to the text after the front matter. -/
def indexFileM (fi : FileInput) : IndexFileResult :=
  match fi.pathStr with
  | none => IndexFileResult.panicked
  | some _ =>
    if fi.readOk then
      match fi.fmParse with
      | Except.error _ => IndexFileResult.panicked
      | Except.ok none => IndexFileResult.err
      | Except.ok (some m) =>
        match deTika m with
        | Except.error _ => IndexFileResult.panicked
        | Except.ok doc =>
          if doc.filename = "" then
            match fi.lastSeg with
            | none => IndexFileResult.panicked
            | some seg =>
                IndexFileResult.ok { doc with filename := seg,
                                              body := fi.content }
          else IndexFileResult.ok { doc with body := fi.content }
    else IndexFileResult.err

/-- One item of the glob iteration at main.rs:254: either a glob error entry
or a candidate file. -/
inductive Entry where
  | globErr
  | file (fi : FileInput)

/-- The stderr lines `main`'s loop can emit for one entry (main.rs:266, 283,
289, 293).  The source's message texts for the date-parse failure and the
non-UTF-8 path are swapped copy-paste artifacts; only the fact that a line
is reported is modelled. -/
inductive ErrLine where
  | globError
  | loadFailed
  | dateParseFailed
  | pathNotStr
deriving DecidableEq, Repr

/-- Processing of one glob entry (main.rs:255-294), parameterized by the two
chrono parse attempts (`DateTime::parse_from_rfc3339` and
`DateTime::parse_from_str` with `"%Y-%m-%dT%T%z"`).  `none` models a panic
aborting the run; otherwise the staged index operations and reported error
lines are returned. -/
def processEntry (rfc fb : String → Option DateTimeFO) (e : Entry) :
    Option (List Op × List ErrLine) :=
  match e with
  | Entry.globErr => some ([], [ErrLine.globError])
  | Entry.file fi =>
    match indexFileM fi with
    | IndexFileResult.panicked => none
    | IndexFileResult.err => some ([], [ErrLine.loadFailed])
    | IndexFileResult.ok doc =>
      match rfc doc.date with
      | some t =>
        (match fi.pathStr with
         | some f => some ([Op.add (mkFields doc f t)], [])
         | none => some ([], [ErrLine.pathNotStr]))
      | none =>
        match fb doc.date with
        | some t =>
          (match fi.pathStr with
           | some f => some ([Op.add (mkFields doc f t)], [])
           | none => some ([], [ErrLine.pathNotStr]))
        | none => some ([], [ErrLine.dateParseFailed])

/-- The indexing phase of `main` (main.rs:254-297): process every glob
entry in order, then `index_writer.commit()` exactly once after the loop.
`none` models a panic aborting the run. -/
def runMain (rfc fb : String → Option DateTimeFO) :
    List Entry → Option (List Op × List ErrLine)
  | [] => some ([Op.commit], [])
  | e :: rest =>
    match processEntry rfc fb e with
    | none => none
    | some (ops, errs) =>
      match runMain rfc fb rest with
      | none => none
      | some (ops2, errs2) => some (ops ++ ops2, errs ++ errs2)

namespace Sync

/-- Modelled from the spec: the source files at hand contain no
ChecksumStore / IndexSyncPipeline (the repository's checksum-comparing
variants are not among them), so §3/§4.2 of the spec is followed: a
persisted mapping `full_path → checksum`, represented as an association
list with upsert `set`. -/
def CS := List (String × Nat)

/-- Modelled from the spec: `ChecksumStore.get(full_path)`. -/
def csGet (st : CS) (p : String) : Option Nat := List.lookup p st

/-- Modelled from the spec: `ChecksumStore.set(full_path, checksum)`
(upsert). -/
def csSet : CS → String → Nat → CS
  | [], p, c => [(p, c)]
  | (q, d) :: rest, p, c =>
      if q = p then (q, c) :: rest else (q, d) :: csSet rest p c

/-- Modelled from the spec: one candidate file of a sync run, carrying its
identity (`full_path`), the fast checksum of its raw content, and the
outcome of front-matter parsing plus date validation (§4.3 steps b–c),
which this model takes as given per file. -/
structure SrcFile where
  full_path : String
  checksum : Nat
  parse : Except String TikaDocument

/-- Modelled from the spec: the per-file outcome kinds of §4.3. -/
inductive SyncOutcome where
  | new
  | unchanged
  | updated
  | failed (reason : String)
deriving DecidableEq, Repr

/-- Modelled from the spec: operations the pipeline issues against the
index engine (§6). -/
inductive SyncOp where
  | addDoc (full_path : String) (doc : TikaDocument)
  | delDoc (full_path : String)
  | commitOp
deriving DecidableEq, Repr

/-- Modelled from the spec: §4.3 step d–e for one file.  Parse failure →
`failed`, no stored entry → `new` (add, update store), stored entry equal
to the current checksum → `unchanged` (no index operation, store
untouched), differing entry → `updated` (delete then add, update store). -/
def syncOne (f : SrcFile) (st : CS) : SyncOutcome × List SyncOp × CS :=
  match f.parse with
  | Except.error r => (SyncOutcome.failed r, [], st)
  | Except.ok d =>
    match csGet st f.full_path with
    | none =>
        (SyncOutcome.new, [SyncOp.addDoc f.full_path d],
         csSet st f.full_path f.checksum)
    | some c =>
        if c = f.checksum then (SyncOutcome.unchanged, [], st)
        else
          (SyncOutcome.updated,
           [SyncOp.delDoc f.full_path, SyncOp.addDoc f.full_path d],
           csSet st f.full_path f.checksum)

/-- Modelled from the spec: the enumeration of §4.3 step 2 over all
candidate files, threading the in-memory store. -/
def syncFiles : List SrcFile → CS → List SyncOutcome × List SyncOp × CS
  | [], st => ([], [], st)
  | f :: rest, st =>
    let r1 := syncOne f st
    let r2 := syncFiles rest r1.2.2
    (r1.1 :: r2.1, r1.2.1 ++ r2.2.1, r2.2.2)

/-- Modelled from the spec: result of a sync run — the outcome per file in
order (the `SyncReport`), the index operations issued, and the final
store. -/
structure SyncResult where
  outcomes : List SyncOutcome
  ops : List SyncOp
  store : CS

/-- Modelled from the spec: `IndexSyncPipeline.sync` (§4.3): process every
file, then commit exactly once. -/
def sync (files : List SrcFile) (st : CS) : SyncResult :=
  let r := syncFiles files st
  { outcomes := r.1, ops := r.2.1 ++ [SyncOp.commitOp], store := r.2.2 }

end Sync

/-! ## Theorems -/

/-- A sequence containing a non-string element makes the `Vec<String>`
deserialization fail. -/
theorem yamlStrings_error (items : List Yaml) (h : items.all isYamlStr = false) :
    ∃ e, yamlStrings items = Except.error e := by
  induction items with
  | nil => simp at h
  | cons a t ih =>
    cases a with
    | str s =>
        simp only [List.all_cons, isYamlStr, Bool.true_and] at h
        obtain ⟨e, he⟩ := ih h
        exact ⟨e, by simp [yamlStrings, he]⟩
    | seq items => exact ⟨DeErr.invalidType, rfl⟩
    | map entries => exact ⟨DeErr.invalidType, rfl⟩
    | bool b => exact ⟨DeErr.invalidType, rfl⟩
    | int n => exact ⟨DeErr.invalidType, rfl⟩
    | null => exact ⟨DeErr.invalidType, rfl⟩

/-- C7: a single scalar string deserializes to the one-element sequence
containing exactly that string; a native sequence of strings deserializes
to exactly that sequence (order preserved, duplicates allowed); any other
shape fails to deserialize. -/
theorem string_or_list_string_spec :
    (∀ s, string_or_list_string (Yaml.str s) = Except.ok [s]) ∧
    (∀ l, string_or_list_string (Yaml.seq (l.map Yaml.str)) = Except.ok l) ∧
    (∀ y, yamlOtherShape y = true →
       ∃ e, string_or_list_string y = Except.error e) := by
  refine ⟨fun s => rfl, fun l => ?_, fun y hy => ?_⟩
  · show yamlStrings (l.map Yaml.str) = Except.ok l
    induction l with
    | nil => rfl
    | cons a t ih => simp only [List.map_cons, yamlStrings, ih]
  · cases y with
    | str s => simp [yamlOtherShape] at hy
    | seq items =>
        simp only [yamlOtherShape, Bool.not_eq_true'] at hy
        exact yamlStrings_error items hy
    | map entries => exact ⟨DeErr.invalidType, rfl⟩
    | bool b => exact ⟨DeErr.invalidType, rfl⟩
    | int n => exact ⟨DeErr.invalidType, rfl⟩
    | null => exact ⟨DeErr.invalidType, rfl⟩

/-- C7 witness: the scalar `"tika"`, the sequence `["a", "b"]`, and a
rejected integer scalar. -/
theorem string_or_list_string_witness :
    string_or_list_string (Yaml.str "tika") = Except.ok ["tika"] ∧
    string_or_list_string (Yaml.seq [Yaml.str "a", Yaml.str "b"]) =
      Except.ok ["a", "b"] ∧
    ∃ e, string_or_list_string (Yaml.int 5) = Except.error e :=
  ⟨string_or_list_string_spec.1 "tika",
   string_or_list_string_spec.2.1 ["a", "b"],
   string_or_list_string_spec.2.2 (Yaml.int 5) rfl⟩

/-- C9: the value submitted to the index engine's `tags` field is the
single string obtained by joining the document's tag sequence with one
space; two tag lists with the same joined form produce the same submitted
value. -/
theorem tags_join_spec :
    (∀ (doc : TikaDocument) (f : String) (t : DateTimeFO),
       (mkFields doc f t).tags = String.intercalate " " doc.tags) ∧
    (∀ (d1 d2 : TikaDocument) (f1 f2 : String) (t1 t2 : DateTimeFO),
       String.intercalate " " d1.tags = String.intercalate " " d2.tags →
       (mkFields d1 f1 t1).tags = (mkFields d2 f2 t2).tags) :=
  ⟨fun _ _ _ => rfl, fun _ _ _ _ _ _ h => h⟩

/-- C9 witness: `["a b", "c"]` and `["a", "b", "c"]` join to the same
string and are submitted identically. -/
theorem tags_join_witness :
    (mkFields { filename := "f", full_path := "", author := "", date := "d",
                tags := ["a b", "c"], title := "T", body := "" } "/p" ⟨0, 0⟩).tags =
    (mkFields { filename := "g", full_path := "", author := "", date := "d",
                tags := ["a", "b", "c"], title := "U", body := "" } "/q" ⟨1, 0⟩).tags :=
  tags_join_spec.2 _ _ _ _ _ _ (by decide)

/-- C3 (divergence): a keystroke whose new buffer is rejected by the query
parser makes the loop body return the parse error (the `?` at main.rs:415
propagates it out of `main`), so the interactive loop exits instead of
degrading to an empty result list. -/
theorem query_error_exits_loop :
    loopStep (fun s => if s = "x\"" then Except.error () else Except.ok [])
      { input := "x", «matches» := ["vim cheatsheet"], state := some 0 }
      (Key.char '"') = LoopStep.errored := by
  rfl

/-- C2 (divergence): a front-matter block lacking `title` makes the derived
deserialization fail with `missing field title`, but `index_file`'s
`serde_yaml::from_str(..).unwrap()` turns that into a panic, so the whole
run aborts (even with further entries pending) instead of recording the
failure and continuing. -/
theorem missing_title_aborts_run :
    deTika [("date", Yaml.str "2021-06-22T12:48:16-0400"),
            ("tags", Yaml.str "tika")]
      = Except.error (DeErr.missingField "title") ∧
    indexFileM { pathStr := some "/notes/a.md", readOk := true,
                 fmParse := Except.ok
                   (some [("date", Yaml.str "2021-06-22T12:48:16-0400"),
                          ("tags", Yaml.str "tika")]),
                 content := "Some note", lastSeg := some "a.md" }
      = IndexFileResult.panicked ∧
    runMain (fun _ => none) (fun _ => none)
      [Entry.file { pathStr := some "/notes/a.md", readOk := true,
                    fmParse := Except.ok
                      (some [("date", Yaml.str "2021-06-22T12:48:16-0400"),
                             ("tags", Yaml.str "tika")]),
                    content := "Some note", lastSeg := some "a.md" },
       Entry.globErr] = none := by
  exact ⟨rfl, rfl, rfl⟩

/-- On a nonempty list the wrapping `len - 1` is the ordinary
predecessor. -/
theorem usizeSub_one (n : Nat) (h1 : 1 ≤ n) (h2 : n < 2 ^ 64) :
    usizeSub n 1 = n - 1 := by
  unfold usizeSub
  have hp : (2 : Nat) ^ 64 = 18446744073709551616 := by norm_num
  rw [hp]
  omega

/-- C4 (amended): on a nonempty result list of length `N < 2^64`, arrow-down
moves a highlighted index `i < N` to `(i+1) mod N` and arrow-up to
`(i-1+N) mod N`; on an empty result list with no highlight, arrow-down and
arrow-up both set the highlighted index to `0` (they are not no-ops). -/
theorem arrow_nav_spec (app : TerminalApp) :
    (∀ i, app.state = some i → i < app.«matches».length →
       app.«matches».length < 2 ^ 64 →
       app.next.state = some ((i + 1) % app.«matches».length) ∧
       app.previous.state =
         some ((i + app.«matches».length - 1) % app.«matches».length)) ∧
    (app.«matches» = [] → app.state = none →
       app.next.state = some 0 ∧ app.previous.state = some 0) := by
  constructor
  · intro i hst hlt hbig
    have h1 : 1 ≤ app.«matches».length := by omega
    have hu := usizeSub_one app.«matches».length h1 hbig
    constructor
    · simp only [TerminalApp.next, hst, hu]
      by_cases hc : i ≥ app.«matches».length - 1
      · have hie : i = app.«matches».length - 1 := by omega
        have : (i + 1) % app.«matches».length = 0 := by
          rw [hie, Nat.sub_add_cancel h1, Nat.mod_self]
        simp [hc, this]
      · have : (i + 1) % app.«matches».length = i + 1 :=
          Nat.mod_eq_of_lt (by omega)
        simp [hc, this]
    · simp only [TerminalApp.previous, hst, hu]
      by_cases hc : i = 0
      · have : (i + app.«matches».length - 1) % app.«matches».length =
            app.«matches».length - 1 := by
          rw [hc, Nat.zero_add]
          exact Nat.mod_eq_of_lt (by omega)
        simp [hc, this]
      · have : (i + app.«matches».length - 1) % app.«matches».length = i - 1 := by
          have he : i + app.«matches».length - 1 =
              (i - 1) + app.«matches».length := by omega
          rw [he, Nat.add_mod_right]
          exact Nat.mod_eq_of_lt (by omega)
        simp [hc, this]
  · intro hm hst
    simp [TerminalApp.next, TerminalApp.previous, hst]

/-- C4 counterexample: with an empty result list and no highlighted index,
arrow-down and arrow-up are not no-ops — both set the highlighted index to
`Some 0`. -/
theorem arrow_nav_counterexample :
    (TerminalApp.next { input := "", «matches» := [], state := none }).state
      = some 0 ∧
    (TerminalApp.previous { input := "", «matches» := [], state := none }).state
      = some 0 ∧
    some 0 ≠ (none : Option Nat) := by
  refine ⟨rfl, rfl, by decide⟩

/-- C4 witness: wraparound on the three-element list, at the last and first
positions. -/
theorem arrow_nav_witness :
    (TerminalApp.next
      { input := "", «matches» := ["a", "b", "c"], state := some 2 }).state
      = some ((2 + 1) % 3) ∧
    (TerminalApp.previous
      { input := "", «matches» := ["a", "b", "c"], state := some 0 }).state
      = some ((0 + 3 - 1) % 3) :=
  ⟨((arrow_nav_spec _).1 2 rfl (by norm_num) (by norm_num)).1,
   ((arrow_nav_spec _).1 0 rfl (by norm_num) (by norm_num)).2⟩

/-- C5 (amended): the projection of a retrieved stored record fills
`filename`, `author`, `title` and `date` from the stored values (empty
string when the stored value is not text — in particular the typed `date`
value always projects to `""`); `body` is always the empty string; `tags`
is always the placeholder `["foo"]` and `full_path` always empty,
regardless of the stored `tags` and `full_path` values. -/
theorem projection_spec (d : TantivyDocM) (fv av tv dv : TantivyValue)
    (h1 : d.filenameV = some fv) (h2 : d.authorV = some av)
    (h3 : d.titleV = some tv) (h4 : d.dateV = some dv) :
    tikaFromTantivy d = some
      { filename := (valueText fv).getD "", full_path := "",
        author := (valueText av).getD "", date := (valueText dv).getD "",
        tags := ["foo"], title := (valueText tv).getD "", body := "" } ∧
    (∀ inst, dv = TantivyValue.date inst → (valueText dv).getD "" = "") := by
  constructor
  · unfold tikaFromTantivy
    rw [h1, h2, h3, h4]
  · intro inst h
    subst h
    rfl

/-- C5 counterexample: a retrieved record whose stored `tags` value is the
text `"kubernetes"` and whose stored `date` is a typed date projects to
`tags = ["foo"]` and `date = ""` — not the stored values. -/
theorem projection_counterexample :
    (tikaFromTantivy
      { filenameV := some (TantivyValue.text "a.md"),
        full_pathV := some (TantivyValue.text "/n/a.md"),
        authorV := some (TantivyValue.text "steve"),
        dateV := some (TantivyValue.date 1624374496),
        tagsV := some (TantivyValue.text "kubernetes"),
        titleV := some (TantivyValue.text "T") }).map TikaDocument.tags
      = some ["foo"] ∧
    (["foo"] : List String) ≠ ["kubernetes"] ∧
    (tikaFromTantivy
      { filenameV := some (TantivyValue.text "a.md"),
        full_pathV := some (TantivyValue.text "/n/a.md"),
        authorV := some (TantivyValue.text "steve"),
        dateV := some (TantivyValue.date 1624374496),
        tagsV := some (TantivyValue.text "kubernetes"),
        titleV := some (TantivyValue.text "T") }).map TikaDocument.date
      = some "" := by
  refine ⟨rfl, by decide, rfl⟩

/-- C5 witness: the amended projection at a concrete retrieved record. -/
theorem projection_witness :
    tikaFromTantivy
      { filenameV := some (TantivyValue.text "b.md"),
        full_pathV := some (TantivyValue.text "/n/b.md"),
        authorV := some (TantivyValue.text "ann"),
        dateV := some (TantivyValue.date 0),
        tagsV := some (TantivyValue.text "vim"),
        titleV := some (TantivyValue.text "B") }
      = some { filename := "b.md", full_path := "", author := "ann",
               date := "", tags := ["foo"], title := "B", body := "" } :=
  (projection_spec _ (TantivyValue.text "b.md") (TantivyValue.text "ann")
    (TantivyValue.text "B") (TantivyValue.date 0) rfl rfl rfl rfl).1

/-- C6: for a file that parses, a `date` accepted by neither the RFC-3339
attempt nor the `%Y-%m-%dT%T%z` fallback is skipped with a reported error
line and stages no add; a date accepted by either attempt stages exactly
one add whose `date` field is the instant converted to UTC. -/
theorem date_gate_spec (rfc fb : String → Option DateTimeFO) (fi : FileInput)
    (doc : TikaDocument) (f : String)
    (hok : indexFileM fi = IndexFileResult.ok doc) (hf : fi.pathStr = some f) :
    (rfc doc.date = none → fb doc.date = none →
       processEntry rfc fb (Entry.file fi)
         = some ([], [ErrLine.dateParseFailed])) ∧
    (∀ t, rfc doc.date = some t →
       processEntry rfc fb (Entry.file fi)
         = some ([Op.add (mkFields doc f t)], [])) ∧
    (∀ t, rfc doc.date = none → fb doc.date = some t →
       processEntry rfc fb (Entry.file fi)
         = some ([Op.add (mkFields doc f t)], [])) ∧
    (∀ t, (mkFields doc f t).date = t.instant) := by
  refine ⟨fun h1 h2 => ?_, fun t ht => ?_, fun t h1 h2 => ?_, fun t => rfl⟩
  · simp only [processEntry, hok, h1, h2]
  · simp only [processEntry, hok, ht, hf]
  · simp only [processEntry, hok, h1, h2, hf]

/-- C6 witness: the same parsed file, once with both date parse attempts
failing (skip plus error line) and once with the RFC-3339 attempt
succeeding (one add, date in UTC). -/
theorem date_gate_witness :
    processEntry (fun _ => none) (fun _ => none)
      (Entry.file
        { pathStr := some "/n/a.md", readOk := true,
          fmParse := Except.ok
            (some [("date", Yaml.str "2021-06-22T12:48:16-0400"),
                   ("tags", Yaml.seq []), ("title", Yaml.str "T")]),
          content := "note", lastSeg := some "a.md" })
      = some ([], [ErrLine.dateParseFailed]) ∧
    processEntry (fun _ => some ⟨1624374496, -14400⟩) (fun _ => none)
      (Entry.file
        { pathStr := some "/n/a.md", readOk := true,
          fmParse := Except.ok
            (some [("date", Yaml.str "2021-06-22T12:48:16-0400"),
                   ("tags", Yaml.seq []), ("title", Yaml.str "T")]),
          content := "note", lastSeg := some "a.md" })
      = some ([Op.add
          (mkFields
            { filename := "a.md", full_path := "", author := "",
              date := "2021-06-22T12:48:16-0400", tags := [], title := "T",
              body := "note" } "/n/a.md" ⟨1624374496, -14400⟩)], []) := by
  constructor
  · exact (date_gate_spec (fun _ => none) (fun _ => none)
      { pathStr := some "/n/a.md", readOk := true,
          fmParse := Except.ok
            (some [("date", Yaml.str "2021-06-22T12:48:16-0400"),
                   ("tags", Yaml.seq []), ("title", Yaml.str "T")]),
          content := "note", lastSeg := some "a.md" }
      { filename := "a.md", full_path := "", author := "",
        date := "2021-06-22T12:48:16-0400", tags := [], title := "T",
        body := "note" } "/n/a.md" rfl rfl).1 rfl rfl
  · exact ((date_gate_spec (fun _ => some ⟨1624374496, -14400⟩)
      (fun _ => none)
      { pathStr := some "/n/a.md", readOk := true,
          fmParse := Except.ok
            (some [("date", Yaml.str "2021-06-22T12:48:16-0400"),
                   ("tags", Yaml.seq []), ("title", Yaml.str "T")]),
          content := "note", lastSeg := some "a.md" }
      { filename := "a.md", full_path := "", author := "",
        date := "2021-06-22T12:48:16-0400", tags := [], title := "T",
        body := "note" } "/n/a.md" rfl rfl).2.1 ⟨1624374496, -14400⟩) rfl

/-- No processed entry ever stages a commit: per-entry output is either
empty or a single add. -/
theorem processEntry_no_commit (rfc fb : String → Option DateTimeFO)
    (e : Entry) (ops : List Op) (errs : List ErrLine)
    (h : processEntry rfc fb e = some (ops, errs)) :
    ∀ op ∈ ops, isCommit op = false := by
  cases e with
  | globErr =>
      simp only [processEntry, Option.some.injEq, Prod.mk.injEq] at h
      obtain ⟨h1, _⟩ := h
      subst h1
      intro op hop
      cases hop
  | file fi =>
      cases hif : indexFileM fi with
      | panicked =>
          rw [processEntry.eq_def] at h
          simp only [hif] at h
          exact Option.noConfusion h
      | err =>
          simp only [processEntry, hif, Option.some.injEq, Prod.mk.injEq] at h
          obtain ⟨h1, _⟩ := h
          subst h1
          intro op hop
          cases hop
      | ok doc =>
          cases hr : rfc doc.date with
          | some t =>
              cases hp : fi.pathStr with
              | some f =>
                  simp only [processEntry, hif, hr, hp, Option.some.injEq,
                    Prod.mk.injEq] at h
                  obtain ⟨h1, _⟩ := h
                  subst h1
                  intro op hop
                  rw [List.mem_singleton.mp hop]
                  rfl
              | none =>
                  simp only [processEntry, hif, hr, hp, Option.some.injEq,
                    Prod.mk.injEq] at h
                  obtain ⟨h1, _⟩ := h
                  subst h1
                  intro op hop
                  cases hop
          | none =>
              cases hfb : fb doc.date with
              | some t =>
                  cases hp : fi.pathStr with
                  | some f =>
                      simp only [processEntry, hif, hr, hfb, hp,
                        Option.some.injEq, Prod.mk.injEq] at h
                      obtain ⟨h1, _⟩ := h
                      subst h1
                      intro op hop
                      rw [List.mem_singleton.mp hop]
                      rfl
                  | none =>
                      simp only [processEntry, hif, hr, hfb, hp,
                        Option.some.injEq, Prod.mk.injEq] at h
                      obtain ⟨h1, _⟩ := h
                      subst h1
                      intro op hop
                      cases hop
              | none =>
                  simp only [processEntry, hif, hr, hfb, Option.some.injEq,
                    Prod.mk.injEq] at h
                  obtain ⟨h1, _⟩ := h
                  subst h1
                  intro op hop
                  cases hop

/-- C8: in every non-panicking run the commit operation appears exactly
once, it is the last operation issued, and every operation before it is a
per-file add, never a commit. -/
theorem commit_once_spec (rfc fb : String → Option DateTimeFO)
    (entries : List Entry) (ops : List Op) (errs : List ErrLine)
    (h : runMain rfc fb entries = some (ops, errs)) :
    ops.countP isCommit = 1 ∧ ops.getLast? = some Op.commit ∧
    ∀ op ∈ ops.dropLast, isCommit op = false := by
  induction entries generalizing ops errs with
  | nil =>
      simp only [runMain, Option.some.injEq, Prod.mk.injEq] at h
      obtain ⟨h1, _⟩ := h
      subst h1
      refine ⟨rfl, rfl, ?_⟩
      intro op hop
      cases hop
  | cons e rest ih =>
      simp only [runMain] at h
      cases hpe : processEntry rfc fb e with
      | none => rw [hpe] at h; cases h
      | some pr =>
          obtain ⟨ops1, errs1⟩ := pr
          rw [hpe] at h
          cases hrm : runMain rfc fb rest with
          | none => rw [hrm] at h; cases h
          | some pr2 =>
              obtain ⟨ops2, errs2⟩ := pr2
              rw [hrm] at h
              simp only [Option.some.injEq, Prod.mk.injEq] at h
              obtain ⟨h1, _⟩ := h
              subst h1
              obtain ⟨ih1, ih2, ih3⟩ := ih ops2 errs2 hrm
              have hops1 := processEntry_no_commit rfc fb e ops1 errs1 hpe
              have hne : ops2 ≠ [] := by
                intro hcon
                rw [hcon] at ih2
                cases ih2
              refine ⟨?_, ?_, ?_⟩
              · rw [List.countP_append]
                have : ops1.countP isCommit = 0 :=
                  List.countP_eq_zero.mpr (by
                    intro a ha
                    simp [hops1 a ha])
                rw [this, ih1]
              · rw [List.getLast?_append_of_ne_nil ops1 hne]
                exact ih2
              · rw [List.dropLast_append_of_ne_nil ops1 hne]
                intro op hop
                rcases List.mem_append.mp hop with hin | hin
                · exact hops1 op hin
                · exact ih3 op hin

/-- C8 witness: the empty run issues exactly the single final commit. -/
theorem commit_once_witness :
    ([Op.commit] : List Op).countP isCommit = 1 ∧
    ([Op.commit] : List Op).getLast? = some Op.commit ∧
    ∀ op ∈ ([Op.commit] : List Op).dropLast, isCommit op = false :=
  commit_once_spec (fun _ => none) (fun _ => none) [] [Op.commit] [] rfl

/-- Prepending an explicit empty `filename` entry to a mapping that has no
`filename` key leaves the deserialization result unchanged. -/
theorem deTika_cons_filename_empty (m : List (String × Yaml))
    (h : m.lookup "filename" = none) :
    deTika (("filename", Yaml.str "") :: m) = deTika m := by
  unfold deTika
  have hf : List.lookup "filename" (("filename", Yaml.str "") :: m)
      = some (Yaml.str "") := by
    rw [List.lookup_cons]
    simp
  have ha : List.lookup "author" (("filename", Yaml.str "") :: m)
      = List.lookup "author" m := by
    rw [List.lookup_cons]
    have : ("author" == "filename") = false := by decide
    rw [this]
  have hd : List.lookup "date" (("filename", Yaml.str "") :: m)
      = List.lookup "date" m := by
    rw [List.lookup_cons]
    have : ("date" == "filename") = false := by decide
    rw [this]
  have ht : List.lookup "tags" (("filename", Yaml.str "") :: m)
      = List.lookup "tags" m := by
    rw [List.lookup_cons]
    have : ("tags" == "filename") = false := by decide
    rw [this]
  have hti : List.lookup "title" (("filename", Yaml.str "") :: m)
      = List.lookup "title" m := by
    rw [List.lookup_cons]
    have : ("title" == "filename") = false := by decide
    rw [this]
  rw [hf, h, ha, hd, ht, hti]

/-- C10: a front-matter `filename` explicitly set to the empty string is
indistinguishable from an absent `filename` (the parsed file is the same),
and a parsed document's filename is never the empty string as long as the
path's final segment is nonempty. -/
theorem filename_default_spec :
    (∀ (fi : FileInput) (m : List (String × Yaml)),
       fi.fmParse = Except.ok (some m) → m.lookup "filename" = none →
       indexFileM
           { fi with
             fmParse := Except.ok (some (("filename", Yaml.str "") :: m)) }
         = indexFileM fi) ∧
    (∀ (fi : FileInput) (doc : TikaDocument),
       (∀ s, fi.lastSeg = some s → s ≠ "") →
       indexFileM fi = IndexFileResult.ok doc → doc.filename ≠ "") := by
  constructor
  · intro fi m hfm hnone
    simp only [indexFileM, hfm, deTika_cons_filename_empty m hnone]
  · intro fi doc hseg hok
    rcases hps : fi.pathStr with _ | p
    · simp only [indexFileM, hps] at hok
      exact IndexFileResult.noConfusion hok
    · cases hro : fi.readOk with
      | false => simp [indexFileM, hps, hro] at hok
      | true =>
        rcases hfm : fi.fmParse with e | om
        · simp only [indexFileM, hps, hro, if_true, hfm] at hok
          exact IndexFileResult.noConfusion hok
        · rcases om with _ | m
          · simp only [indexFileM, hps, hro, if_true, hfm] at hok
            exact IndexFileResult.noConfusion hok
          · rcases hdt : deTika m with e | d
            · simp only [indexFileM, hps, hro, if_true, hfm, hdt] at hok
              exact IndexFileResult.noConfusion hok
            · by_cases hfn : d.filename = ""
              · rcases hls : fi.lastSeg with _ | seg
                · simp only [indexFileM, hps, hro, if_true, hfm, hdt,
                    if_pos hfn, hls] at hok
                  exact IndexFileResult.noConfusion hok
                · simp only [indexFileM, hps, hro, if_true, hfm, hdt,
                    if_pos hfn, hls, IndexFileResult.ok.injEq] at hok
                  rw [← hok]
                  exact hseg seg hls
              · simp only [indexFileM, hps, hro, if_true, hfm, hdt,
                  if_neg hfn, IndexFileResult.ok.injEq] at hok
                rw [← hok]
                exact hfn

/-- C10 witness: a mapping without `filename` versus the same mapping with
an explicit empty `filename`, and the resulting nonempty filename. -/
theorem filename_default_witness :
    indexFileM { pathStr := some "/n/c.md", readOk := true,
                 fmParse := Except.ok
                   (some (("filename", Yaml.str "") ::
                     [("date", Yaml.str "d"), ("tags", Yaml.seq []),
                      ("title", Yaml.str "T")])),
                 content := "b", lastSeg := some "c.md" }
      = indexFileM { pathStr := some "/n/c.md", readOk := true,
                     fmParse := Except.ok
                       (some [("date", Yaml.str "d"), ("tags", Yaml.seq []),
                              ("title", Yaml.str "T")]),
                     content := "b", lastSeg := some "c.md" } ∧
    ("c.md" : String) ≠ "" := by
  constructor
  · exact filename_default_spec.1
      { pathStr := some "/n/c.md", readOk := true,
        fmParse := Except.ok
          (some [("date", Yaml.str "d"), ("tags", Yaml.seq []),
                 ("title", Yaml.str "T")]),
        content := "b", lastSeg := some "c.md" }
      [("date", Yaml.str "d"), ("tags", Yaml.seq []), ("title", Yaml.str "T")]
      rfl rfl
  · exact filename_default_spec.2
      { pathStr := some "/n/c.md", readOk := true,
        fmParse := Except.ok
          (some [("date", Yaml.str "d"), ("tags", Yaml.seq []),
                 ("title", Yaml.str "T")]),
        content := "b", lastSeg := some "c.md" }
      { filename := "c.md", full_path := "", author := "", date := "d",
        tags := [], title := "T", body := "b" }
      (by intro s hs; cases hs; decide) rfl

namespace Sync

/-- Upserting a checksum makes it the stored value for that path. -/
theorem csGet_csSet_self (st : CS) (p : String) (c : Nat) :
    csGet (csSet st p c) p = some c := by
  induction st with
  | nil => simp [csSet, csGet, List.lookup_cons]
  | cons hd tl ih =>
    obtain ⟨q, d⟩ := hd
    by_cases h : q = p
    · subst h
      simp [csSet, csGet, List.lookup_cons]
    · simp only [csSet, if_neg h, csGet, List.lookup_cons]
      have hb : (p == q) = false := beq_eq_false_iff_ne.mpr (Ne.symm h)
      rw [hb]
      exact ih

/-- Upserting a checksum leaves every other path's entry unchanged. -/
theorem csGet_csSet_ne (st : CS) (p : String) (c : Nat) (q : String)
    (h : q ≠ p) : csGet (csSet st p c) q = csGet st q := by
  induction st with
  | nil =>
    show List.lookup q [(p, c)] = List.lookup q []
    rw [List.lookup_cons, beq_eq_false_iff_ne.mpr h]
  | cons hd tl ih =>
    obtain ⟨k, d⟩ := hd
    by_cases hk : k = p
    · subst hk
      have hset : csSet ((k, d) :: tl) k c = (k, c) :: tl := by
        simp [csSet]
      rw [hset]
      show List.lookup q ((k, c) :: tl) = List.lookup q ((k, d) :: tl)
      rw [List.lookup_cons, List.lookup_cons, beq_eq_false_iff_ne.mpr h]
    · have hset : csSet ((k, d) :: tl) p c = (k, d) :: csSet tl p c := by
        simp [csSet, hk]
      rw [hset]
      show List.lookup q ((k, d) :: csSet tl p c)
        = List.lookup q ((k, d) :: tl)
      rw [List.lookup_cons, List.lookup_cons]
      cases hqk : (q == k) with
      | true => rfl
      | false => exact ih

/-- After processing a file that parses, the store maps its path to its
current checksum. -/
theorem syncOne_get_self (f : SrcFile) (d : TikaDocument) (st : CS)
    (h : f.parse = Except.ok d) :
    csGet (syncOne f st).2.2 f.full_path = some f.checksum := by
  simp only [syncOne, h]
  cases hg : csGet st f.full_path with
  | none => simpa using csGet_csSet_self st f.full_path f.checksum
  | some c =>
    by_cases hc : c = f.checksum
    · simp only [if_pos hc]
      rw [hg, hc]
    · simp only [if_neg hc]
      simpa using csGet_csSet_self st f.full_path f.checksum

/-- Processing a file never changes the stored entry of a different
path. -/
theorem syncOne_get_ne (f : SrcFile) (st : CS) (q : String)
    (h : q ≠ f.full_path) :
    csGet (syncOne f st).2.2 q = csGet st q := by
  cases hp : f.parse with
  | error r => simp [syncOne, hp]
  | ok d =>
    simp only [syncOne, hp]
    cases hg : csGet st f.full_path with
    | none => simpa using csGet_csSet_ne st f.full_path f.checksum q h
    | some c =>
      by_cases hc : c = f.checksum
      · simp [if_pos hc]
      · simp only [if_neg hc]
        simpa using csGet_csSet_ne st f.full_path f.checksum q h

/-- A run over files none of which has a given path leaves that path's
stored entry unchanged. -/
theorem syncFiles_get_unmoved (files : List SrcFile) :
    ∀ (st : CS) (q : String), (∀ f ∈ files, q ≠ f.full_path) →
    csGet (syncFiles files st).2.2 q = csGet st q := by
  induction files with
  | nil => intro st q _; rfl
  | cons g rest ih =>
    intro st q h
    show csGet (syncFiles rest (syncOne g st).2.2).2.2 q = csGet st q
    rw [ih _ q (fun f hf => h f (List.mem_cons_of_mem g hf))]
    exact syncOne_get_ne g st q (h g (List.mem_cons_self g rest))

/-- After a run in which every file parses and paths are distinct, the
store maps each file's path to its current checksum. -/
theorem syncFiles_get_final (files : List SrcFile) :
    ∀ (st : CS), (∀ f ∈ files, ∃ d, f.parse = Except.ok d) →
    (files.map SrcFile.full_path).Nodup →
    ∀ f ∈ files, csGet (syncFiles files st).2.2 f.full_path
      = some f.checksum := by
  induction files with
  | nil => intro st _ _ f hf; cases hf
  | cons g rest ih =>
    intro st hp hnd f hf
    rcases List.mem_cons.mp hf with hfg | hfr
    · subst hfg
      show csGet (syncFiles rest (syncOne f st).2.2).2.2 f.full_path
        = some f.checksum
      have hnotin : ∀ f2 ∈ rest, f.full_path ≠ f2.full_path := by
        intro f2 hf2 he
        have hmem : f.full_path ∈ rest.map SrcFile.full_path := by
          rw [he]
          exact List.mem_map_of_mem _ hf2
        simp only [List.map_cons, List.nodup_cons] at hnd
        exact hnd.1 hmem
      rw [syncFiles_get_unmoved rest _ _ hnotin]
      obtain ⟨d, hd⟩ := hp f (List.mem_cons_self f rest)
      exact syncOne_get_self f d st hd
    · show csGet (syncFiles rest (syncOne g st).2.2).2.2 f.full_path
        = some f.checksum
      refine ih _ (fun f2 h2 => hp f2 (List.mem_cons_of_mem g h2)) ?_ f hfr
      simp only [List.map_cons, List.nodup_cons] at hnd
      exact hnd.2

/-- A run in which every file parses and already has its current checksum
stored reports every file `unchanged`, issues no index operation, and
leaves the store untouched. -/
theorem syncFiles_all_unchanged (files : List SrcFile) :
    ∀ (st : CS),
    (∀ f ∈ files, (∃ d, f.parse = Except.ok d) ∧
       csGet st f.full_path = some f.checksum) →
    syncFiles files st
      = (files.map fun _ => SyncOutcome.unchanged, [], st) := by
  induction files with
  | nil => intro st _; rfl
  | cons g rest ih =>
    intro st h
    obtain ⟨⟨d, hd⟩, hcs⟩ := h g (List.mem_cons_self g rest)
    have h1 : syncOne g st = (SyncOutcome.unchanged, [], st) := by
      simp [syncOne, hd, hcs]
    have h2 := ih st (fun f hf => h f (List.mem_cons_of_mem g hf))
    calc syncFiles (g :: rest) st
        = ((syncOne g st).1 :: (syncFiles rest (syncOne g st).2.2).1,
           (syncOne g st).2.1 ++ (syncFiles rest (syncOne g st).2.2).2.1,
           (syncFiles rest (syncOne g st).2.2).2.2) := rfl
      _ = (SyncOutcome.unchanged :: (syncFiles rest st).1,
           [] ++ (syncFiles rest st).2.1,
           (syncFiles rest st).2.2) := by rw [h1]
      _ = ((g :: rest).map (fun _ => SyncOutcome.unchanged), [], st) := by
           rw [h2]
           rfl

/-- C1: the checksum comparison gates reindexing — for a file whose stored
checksum equals the current one the outcome is `unchanged`, no add is
issued and the store entry is untouched; consequently a second sync run
over an unchanged corpus (all files parse, paths distinct) reports every
outcome `unchanged` and issues nothing but the final commit, leaving the
store as the first run left it. -/
theorem sync_unchanged_spec (files : List SrcFile) (store0 : CS)
    (hp : ∀ f ∈ files, ∃ d, f.parse = Except.ok d)
    (hnd : (files.map SrcFile.full_path).Nodup) :
    (∀ (f : SrcFile) (st : CS) (d : TikaDocument), f.parse = Except.ok d →
       csGet st f.full_path = some f.checksum →
       syncOne f st = (SyncOutcome.unchanged, [], st)) ∧
    (sync files (sync files store0).store).outcomes
      = files.map (fun _ => SyncOutcome.unchanged) ∧
    (sync files (sync files store0).store).ops = [SyncOp.commitOp] ∧
    (sync files (sync files store0).store).store
      = (sync files store0).store := by
  have hone : ∀ (f : SrcFile) (st : CS) (d : TikaDocument),
      f.parse = Except.ok d → csGet st f.full_path = some f.checksum →
      syncOne f st = (SyncOutcome.unchanged, [], st) := by
    intro f st d hd hcs
    simp [syncOne, hd, hcs]
  have hst1 : ∀ f ∈ files,
      csGet (sync files store0).store f.full_path = some f.checksum := by
    intro f hf
    exact syncFiles_get_final files store0 hp hnd f hf
  have hall := syncFiles_all_unchanged files (sync files store0).store
      (fun f hf => ⟨hp f hf, hst1 f hf⟩)
  refine ⟨hone, ?_, ?_, ?_⟩
  · show (syncFiles files (sync files store0).store).1 = _
    rw [hall]
  · show (syncFiles files (sync files store0).store).2.1 ++ [SyncOp.commitOp]
      = [SyncOp.commitOp]
    rw [hall]
    rfl
  · show (syncFiles files (sync files store0).store).2.2
      = (sync files store0).store
    rw [hall]

/-- C1 witness: a one-file corpus synced twice from an empty store — the
second run is all `unchanged` with only the commit. -/
theorem sync_unchanged_witness :
    (sync [⟨"/a.md", 123, Except.ok ⟨"a.md", "", "", "d", [], "T", "b"⟩⟩]
       (sync [⟨"/a.md", 123, Except.ok ⟨"a.md", "", "", "d", [], "T", "b"⟩⟩]
          ([] : CS)).store).outcomes = [SyncOutcome.unchanged] ∧
    (sync [⟨"/a.md", 123, Except.ok ⟨"a.md", "", "", "d", [], "T", "b"⟩⟩]
       (sync [⟨"/a.md", 123, Except.ok ⟨"a.md", "", "", "d", [], "T", "b"⟩⟩]
          ([] : CS)).store).ops = [SyncOp.commitOp] := by
  have h := sync_unchanged_spec
      [⟨"/a.md", 123, Except.ok ⟨"a.md", "", "", "d", [], "T", "b"⟩⟩] []
      (by intro f hf
          rw [List.mem_singleton] at hf
          subst hf
          exact ⟨_, rfl⟩)
      (by simp)
  exact ⟨h.2.1, h.2.2.1⟩

end Sync

end Tika
